import Mathlib

/-!
Verification of the build execution core in `pym/bob/cmds/build.py`.

The Python code is shallowly embedded: byte strings become `List Nat`,
Python values stored in the persistent state (`BobState`) become the
inductive `PyVal`/`PyAtom`, dictionaries become association lists with
explicit lookup/insert/erase helpers matching Python's dict semantics,
and each relevant method of `LocalBuilder` / `DevelopDirOracle` becomes a
pure function over an explicit state record.  Filesystem contents,
archive answers and SCM answers enter the model as oracle inputs.
-/

namespace Bob

/-- Byte strings (Python `bytes`, e.g. 20-byte digests) as lists of byte values. -/
abbrev Bytes := List Nat

/-- Atomic Python values appearing inside stored lists: `None`, a bytes digest,
a string, or a `datetime` timestamp (the in-progress sentinel). -/
inductive PyAtom where
  | anone : PyAtom
  | abytes : Bytes → PyAtom
  | astr : String → PyAtom
  | atime : Nat → PyAtom
  deriving DecidableEq, Repr

/-- Python values stored in the persistent per-workspace records: `None`,
bytes, a string, a timestamp, or a flat list of atoms. -/
inductive PyVal where
  | pnone : PyVal
  | pbytes : Bytes → PyVal
  | pstr : String → PyVal
  | ptime : Nat → PyVal
  | plist : List PyAtom → PyVal
  deriving DecidableEq, Repr

/-- Embed an atom into `PyVal` (Python has no such distinction; the split keeps
the Lean types finitary). -/
def PyAtom.toVal : PyAtom → PyVal
  | .anone => .pnone
  | .abytes b => .pbytes b
  | .astr s => .pstr s
  | .atime t => .ptime t

/-- Dictionary lookup on an association list (first binding wins, like a dict
with unique keys). -/
def dlookup {K V : Type} [DecidableEq K] (d : List (K × V)) (k : K) : Option V :=
  match d with
  | [] => none
  | (k', v) :: rest => if k' = k then some v else dlookup rest k

/-- Python `d[k] = v`: replace the binding if present, else append. -/
def dinsert {K V : Type} [DecidableEq K] (d : List (K × V)) (k : K) (v : V) :
    List (K × V) :=
  match d with
  | [] => [(k, v)]
  | (k', v') :: rest =>
      if k' = k then (k, v) :: rest else (k', v') :: dinsert rest k v

/-- Python `del d[k]` (a dict holds a key at most once, so dropping every
binding of `k` is the same operation). -/
def derase {K V : Type} [DecidableEq K] (d : List (K × V)) (k : K) : List (K × V) :=
  d.filter fun kv => kv.1 ≠ k

/-- Python `d.get(k)` convention used for checkout directory dicts: absent keys
read as `None`. -/
def cdGet (d : List (Option String × PyAtom)) (k : Option String) : PyAtom :=
  (dlookup d k).getD .anone

/-- One direction of Python dict equality: every binding of `a` is found in `b`. -/
def dictLe {K V : Type} [DecidableEq K] [DecidableEq V] (a b : List (K × V)) : Bool :=
  a.all fun kv => decide (dlookup b kv.1 = some kv.2)

/-- Python `==` on dicts: same keys, equal values (order irrelevant). -/
def dictEqb {K V : Type} [DecidableEq K] [DecidableEq V] (a b : List (K × V)) : Bool :=
  dictLe a b && dictLe b a

/-! ## Script harness result handling (`LocalBuilder._runShell`, build.py:801-815) -/

/-- A raised `BuildError`: its message and the optional `help` text. -/
structure BuildErrorE where
  msg : String
  helpMsg : Option String
  deriving DecidableEq, Repr

/-- `signal.SIGINT` on POSIX. -/
def SIGINT : Int := 2

/-- The user-abort help text attached by `_runShell`. -/
def resumeHelpAbort : String :=
  "Run again with '--resume' to skip already built packages."

/-- The failure help text attached by `_runShell`. -/
def resumeHelpFail : String :=
  "You may resume at this point with '--resume' after fixing the error."

/-- `LocalBuilder._runShell` return-code handling (build.py:809-815): the shell
wrapper exited with `ret`; `absRunFile` is the absolute wrapper script path. -/
def runShellResult (ret : Int) (absRunFile : String) : Except BuildErrorE Unit :=
  if ret = -SIGINT then
    .error ⟨"User aborted while running " ++ absRunFile, some resumeHelpAbort⟩
  else if ret ≠ 0 then
    .error ⟨"Build script " ++ absRunFile ++ " returned with " ++ toString ret,
            some resumeHelpFail⟩
  else
    .ok ()

/-! ## Download mode (`LocalBuilder.setDownloadMode`, build.py:452-474) -/

/-- The in-builder download configuration: `__downloadDepth`,
`__downloadDepthForce` and the `wantDownload` flag passed to the archive. -/
structure DownloadCfg where
  downloadDepth : Nat
  downloadDepthForce : Nat
  wantDownload : Bool
  deriving DecidableEq, Repr

/-- Both depths start at `0xffff` in `LocalBuilder.__init__` (build.py:434-435). -/
def initialDownloadCfg : DownloadCfg := ⟨0xffff, 0xffff, false⟩

/-- `LocalBuilder.setDownloadMode` (build.py:452-474).  `canDL` is the answer of
`archive.canDownloadLocal()`.  Note that the method only resets
`__downloadDepth`; `__downloadDepthForce` keeps its previous value unless a
forced mode sets it. -/
def setDownloadMode (canDL : Bool) (mode : String) (cfg : DownloadCfg) : DownloadCfg :=
  let cfg := { cfg with downloadDepth := 0xffff }
  if mode = "yes" ∨ mode = "forced" then
    let cfg := { cfg with wantDownload := true }
    if mode = "forced" then
      { cfg with downloadDepth := 0, downloadDepthForce := 0 }
    else if canDL then
      { cfg with downloadDepth := 0 }
    else cfg
  else if mode = "deps" ∨ mode = "forced-deps" then
    let cfg := { cfg with wantDownload := true }
    if mode = "forced-deps" then
      { cfg with downloadDepth := 1, downloadDepthForce := 1 }
    else if canDL then
      { cfg with downloadDepth := 1 }
    else cfg
  else if mode = "forced-fallback" then
    { cfg with wantDownload := true, downloadDepth := 0, downloadDepthForce := 1 }
  else
    { cfg with wantDownload := false }

/-- The spec's mode table (§4.5.4), written from the spec's words for
comparison: mode → (downloadDepth, downloadDepthForce), with `0xffff`
standing for "∞" (unreachable depth). -/
def downloadModeTableSpec (canDL : Bool) (mode : String) : Nat × Nat :=
  if mode = "no" then (0xffff, 0xffff)
  else if mode = "yes" then (if canDL then 0 else 0xffff, 0xffff)
  else if mode = "forced" then (0, 0)
  else if mode = "deps" then (if canDL then 1 else 0xffff, 0xffff)
  else if mode = "forced-deps" then (1, 1)
  else if mode = "forced-fallback" then (0, 1)
  else (0xffff, 0xffff)

/-- The six recognised download modes (build.py:1577-1578). -/
def downloadModes : List String :=
  ["yes", "no", "deps", "forced", "forced-deps", "forced-fallback"]

/-! ## In-memory was-run bookkeeping (`_wasAlreadyRun` / `_setAlreadyRun` /
`_clearWasRun`, build.py:519-543) -/

/-- `__wasRun`: workspace path → (variant-id, isCheckoutStep). -/
abbrev WasRunMap := List (String × (Bytes × Bool))

/-- `__wasSkipped`: workspace path → skipped flag. -/
abbrev WasSkippedMap := List (String × Bool)

/-- `LocalBuilder._wasAlreadyRun` (build.py:519-537): returns the answer and the
possibly updated `__wasRun` map (a stale variant-id entry is deleted). -/
def wasAlreadyRun (wasRun : WasRunMap) (wasSkipped : WasSkippedMap)
    (path : String) (vid : Bytes) (skippedOk : Bool) : Bool × WasRunMap :=
  match dlookup wasRun path with
  | some (digest, _) =>
      if digest ≠ vid then
        (false, derase wasRun path)
      else if ¬skippedOk ∧ ((dlookup wasSkipped path).getD false) then
        (false, wasRun)
      else
        (true, wasRun)
  | none => (false, wasRun)

/-- `LocalBuilder._clearWasRun` (build.py:539-543): keep only checkout entries. -/
def clearWasRun (wasRun : WasRunMap) : WasRunMap :=
  wasRun.filter fun e => e.2.2

/-! ## Build state save / load (`saveBuildState` / `loadBuildState`,
build.py:497-517) -/

/-- `__srcBuildIds`: (workspace path, variant-id) → (build-id, predicted). -/
abbrev SrcBuildIdMap := List ((String × Bytes) × (Bytes × Bool))

/-- `__buildDistBuildIds`: workspace path → build-id (non-checkout steps). -/
abbrev DistBuildIdMap := List (String × Bytes)

/-- The in-memory builder data covered by the saved build state and by
mispredict recovery, together with the persistent `BobState` build-id map
(`b"\x00"+sandbox_variant_id → live-id`, `b"\x01"+live-id → build-id`). -/
structure BuilderMem where
  wasRun : WasRunMap
  wasSkipped : WasSkippedMap
  srcBuildIds : SrcBuildIdMap
  buildDistBuildIds : DistBuildIdMap
  stateBuildIds : List (Bytes × Bytes)
  deriving DecidableEq, Repr

/-- The persisted blob written by `BobState().setBuildState`. -/
structure SavedBuildState where
  wasRunS : WasRunMap
  predictedBuildId : List ((String × Bytes) × Bytes)
  deriving DecidableEq, Repr

/-- `LocalBuilder.saveBuildState` (build.py:497-511): drop skipped entries from
`wasRun`, keep only predicted src build-ids (without their flag). -/
def saveBuildState (b : BuilderMem) : SavedBuildState where
  wasRunS := b.wasRun.filter fun e => !((dlookup b.wasSkipped e.1).getD false)
  predictedBuildId := (b.srcBuildIds.filter fun e => e.2.2).map fun e => (e.1, e.2.1)

/-- `LocalBuilder.loadBuildState` (build.py:513-517): restore `wasRun` verbatim
and the predicted src build-ids with the predicted flag set. -/
def loadBuildState (s : SavedBuildState) (b : BuilderMem) : BuilderMem :=
  { b with
    wasRun := s.wasRunS
    srcBuildIds := s.predictedBuildId.map fun e => (e.1, (e.2, true)) }

/-! ## Persistent per-workspace records

`BobState` lives outside `src/` (module `bob.state`); its accessors are
modelled from the spec. -/

/-- Persistent record of a build or package workspace.  `dirState` is the
"build digest" (`setDirectoryState`), `resultHash` may be the timestamp
sentinel. -/
structure BWs where
  variantId : PyVal
  dirState : PyVal
  inputHashes : PyVal
  resultHash : PyAtom
  deriving DecidableEq, Repr

/-- Modelled from the spec: `BobState().resetWorkspaceState(path, digest)`
(bob.state is not under src/): atomically clears result and input hashes and
stores the new directory state (spec §4.1). -/
def resetWorkspaceState (ws : BWs) (dirState : PyVal) : BWs :=
  { ws with dirState := dirState, inputHashes := .pnone, resultHash := .anone }

/-- Python truthiness of an optional bytes value (`None` and `b""` are falsy). -/
def pyTruthy : Option Bytes → Bool
  | none => false
  | some b => !b.isEmpty

/-- An optional bytes value as the Python object it is (`None` or the bytes). -/
def pyValOfOpt : Option Bytes → PyVal
  | none => .pnone
  | some b => .pbytes b

/-- Same, as a list element. -/
def pyAtomOfOpt : Option Bytes → PyAtom
  | none => .anone
  | some b => .abytes b

/-! ## Package step (`LocalBuilder._cookPackageStep`, build.py:1187-1313) -/

/-- Splitting the stored `input_hashes` of a package workspace
(build.py:1213-1224) into `(oldInputBuildId, oldInputHashes, oldWasDownloaded)`:
a non-empty list is build-id followed by dependency hashes, a bytes value is
the build-id of a downloaded artifact, anything else (absent, empty list) is
passed through as made by an old Bob version or a fresh workspace. -/
def decodeInputHashes : PyVal → PyVal × PyVal × Bool
  | .plist (h :: t) => (h.toVal, .plist t, false)
  | .pbytes b => (.pbytes b, .pnone, true)
  | v => (v, v, false)

/-- Inputs of one `_cookPackageStep` invocation.  Oracles stand for the
collaborators: `buildIdOracle` is what `_getBuildId` would return,
`downloadOk` the archive's `downloadPackage` answer, `downloadedHash` /
`builtHash` the `hashWorkspace` results, `depHashes` the stored result hashes
of `[checkoutStep] + getAllDepSteps()` (valid ones), `scriptOk` whether
`_runShell` succeeds. -/
structure PkgIn where
  checkoutOnly : Bool
  force : Bool
  depth : Nat
  cfg : DownloadCfg
  isRelocatable : Bool
  hasSandbox : Bool
  variantId : Bytes
  incrementalVariantId : Bytes
  buildIdOracle : Bytes
  created : Bool
  downloadOk : Bool
  downloadedHash : PyAtom
  builtHash : PyAtom
  depHashes : List PyAtom
  scriptOk : Bool

/-- build.py:1204-1207: a build-id is determined only when the result could
theoretically be downloaded — the step is relocatable or runs in a sandbox. -/
def packageBuildIdOf (inp : PkgIn) : Option Bytes :=
  if inp.isRelocatable ∨ inp.hasSandbox then some inp.buildIdOracle else none

/-- Observable outcome of one `_cookPackageStep` invocation. -/
structure PkgOut where
  ws : BWs
  buildIdComputed : Bool
  downloadInvoked : Bool
  scriptInvoked : Bool
  errorRaised : Bool
  preRunWs : Option BWs
  wasDownloaded : Bool
  workspaceChanged : Bool
  deriving DecidableEq, Repr

/-- build.py:1189-1199: construct dir, prune and reset the state on a
variant-id mismatch or a fresh directory. -/
def pkgPrepare (inp : PkgIn) (ws0 : BWs) : BWs :=
  if inp.created || decide (ws0.dirState ≠ PyVal.pbytes inp.variantId) then
    resetWorkspaceState ws0 (PyVal.pbytes inp.variantId)
  else ws0

/-- build.py:1239 guard: download only outside checkout-only, with a (truthy)
build-id, at sufficient depth. -/
def pkgTryDownload (inp : PkgIn) : Bool :=
  !inp.checkoutOnly && pyTruthy (packageBuildIdOf inp) &&
    decide (inp.cfg.downloadDepth ≤ inp.depth)

/-- build.py:1241: inside the download branch, prune if something different
was previously built/downloaded, or the build is forced. -/
def pkgDoPrune (inp : PkgIn) (ws1 : BWs) : Bool :=
  pkgTryDownload inp &&
    ((decide ((decodeInputHashes ws1.inputHashes).1 ≠ PyVal.pnone) &&
      decide ((decodeInputHashes ws1.inputHashes).1 ≠ pyValOfOpt (packageBuildIdOf inp)))
     || inp.force)

/-- build.py:1245-1246: the workspace after the optional prune. -/
def pkgWs2 (inp : PkgIn) (ws1 : BWs) : BWs :=
  if pkgDoPrune inp ws1 then resetWorkspaceState ws1 (PyVal.pbytes inp.variantId)
  else ws1

/-- build.py:1247-1248: `oldInputHashes` is forgotten by the prune. -/
def pkgOldInputHashes (inp : PkgIn) (ws1 : BWs) : PyVal :=
  if pkgDoPrune inp ws1 then PyVal.pnone else (decodeInputHashes ws1.inputHashes).2.1

/-- build.py:1253: the download is attempted exactly when the guard holds and
the (possibly pruned) workspace holds no result. -/
def pkgDownloadInvoked (inp : PkgIn) (ws1 : BWs) : Bool :=
  pkgTryDownload inp && decide ((pkgWs2 inp ws1).resultHash = PyAtom.anone)

/-- `LocalBuilder._cookPackageStep` (build.py:1187-1313) over the persistent
record `ws0` of the package workspace.  Follows the source top to bottom;
a raised `BuildError` stops the function (`errorRaised`), leaving the store
as written so far. -/
def cookPackageStep (inp : PkgIn) (ws0 : BWs) : PkgOut :=
  let ws1 := pkgPrepare inp ws0
  -- build.py:1204-1207: build-id only for relocatable or sandboxed steps
  let relocOrSandbox := inp.isRelocatable || inp.hasSandbox
  let packageBuildId : Option Bytes := packageBuildIdOf inp
  -- build.py:1213-1224: split the stored input hashes
  let oldWasDownloaded := (decodeInputHashes ws1.inputHashes).2.2
  let ws2 := pkgWs2 inp ws1
  let oldInputHashes := pkgOldInputHashes inp ws1
  -- build.py:1253-1264: attempt the download when the workspace holds no result
  let downloadInvoked := pkgDownloadInvoked inp ws1
  let dlSuccess := downloadInvoked && inp.downloadOk
  if downloadInvoked && !inp.downloadOk && decide (inp.cfg.downloadDepthForce ≤ inp.depth) then
    -- build.py:1264: raise BuildError("Downloading artifact failed")
    { ws := ws2, buildIdComputed := relocOrSandbox, downloadInvoked := downloadInvoked
      scriptInvoked := false, errorRaised := true, preRunWs := none
      wasDownloaded := false, workspaceChanged := false }
  else
    let ws3 := if dlSuccess then
        { ws2 with inputHashes := pyValOfOpt packageBuildId } else ws2
    -- build.py:1265-1268: already downloaded and build-id unchanged
    let wasDownloaded := dlSuccess ||
      (pkgTryDownload inp && !(decide (ws2.resultHash = PyAtom.anone)) && oldWasDownloaded)
    if wasDownloaded then
      -- build.py:1306-1313 with workspaceChanged = dlSuccess
      if dlSuccess then
        { ws := { ws3 with resultHash := inp.downloadedHash
                           variantId := PyVal.pbytes inp.variantId
                           inputHashes := pyValOfOpt packageBuildId }
          buildIdComputed := relocOrSandbox, downloadInvoked := downloadInvoked
          scriptInvoked := false, errorRaised := false, preRunWs := none
          wasDownloaded := true, workspaceChanged := true }
      else
        { ws := ws3, buildIdComputed := relocOrSandbox, downloadInvoked := downloadInvoked
          scriptInvoked := false, errorRaised := false, preRunWs := none
          wasDownloaded := true, workspaceChanged := false }
    else
      -- build.py:1274-1304: build locally (deps are cooked first, not modelled)
      let packageInputHashes := inp.depHashes
      if inp.checkoutOnly then
        { ws := ws3, buildIdComputed := relocOrSandbox, downloadInvoked := downloadInvoked
          scriptInvoked := false, errorRaised := false, preRunWs := none
          wasDownloaded := false, workspaceChanged := false }
      else if !inp.force && decide (oldInputHashes = PyVal.plist packageInputHashes) then
        { ws := ws3, buildIdComputed := relocOrSandbox, downloadInvoked := downloadInvoked
          scriptInvoked := false, errorRaised := false, preRunWs := none
          wasDownloaded := false, workspaceChanged := false }
      else
        -- build.py:1295-1296: squash state before running the script
        let pre := { ws3 with inputHashes := PyVal.pnone, resultHash := PyAtom.atime 0 }
        if !inp.scriptOk then
          { ws := pre, buildIdComputed := relocOrSandbox, downloadInvoked := downloadInvoked
            scriptInvoked := true, errorRaised := true, preRunWs := some pre
            wasDownloaded := false, workspaceChanged := false }
        else
          -- build.py:1298-1299 and 1306-1313
          { ws := { pre with resultHash := inp.builtHash
                             variantId := PyVal.pbytes inp.incrementalVariantId
                             inputHashes := PyVal.plist (pyAtomOfOpt packageBuildId :: packageInputHashes) }
            buildIdComputed := relocOrSandbox, downloadInvoked := downloadInvoked
            scriptInvoked := true, errorRaised := false, preRunWs := some pre
            wasDownloaded := false, workspaceChanged := true }

/-! ## Build step (`LocalBuilder._cookBuildStep`, build.py:1131-1185) -/

/-- Inputs of one `_cookBuildStep` invocation.  `argExecPaths` are the exec
paths of the valid arguments, `depHashes` the stored result hashes of the
valid dependencies, `devHash` / `builtHash` the `hashWorkspace` oracles. -/
structure BldIn where
  checkoutOnly : Bool
  force : Bool
  cleanBuild : Bool
  created : Bool
  incrementalVariantId : Bytes
  execPath : String
  argExecPaths : List String
  depHashes : List PyAtom
  devHash : PyAtom
  builtHash : PyAtom
  scriptOk : Bool

/-- Observable outcome of one `_cookBuildStep` invocation. -/
structure BldOut where
  ws : BWs
  scriptInvoked : Bool
  errorRaised : Bool
  preRunWs : Option BWs
  deriving DecidableEq, Repr

/-- build.py:1144-1145: the build digest
`[incremental_variant_id, exec_path, *arg_exec_paths]`. -/
def bldDigest (inp : BldIn) : List PyAtom :=
  PyAtom.abytes inp.incrementalVariantId :: PyAtom.astr inp.execPath ::
    inp.argExecPaths.map PyAtom.astr

/-- build.py:1148-1157: prune and reset the state if the directory was
created or the build digest changed. -/
def bldPrepare (inp : BldIn) (ws0 : BWs) : BWs :=
  if inp.created || decide (ws0.dirState ≠ PyVal.plist (bldDigest inp)) then
    resetWorkspaceState ws0 (PyVal.plist (bldDigest inp))
  else ws0

/-- `LocalBuilder._cookBuildStep` (build.py:1131-1185). -/
def cookBuildStep (inp : BldIn) (ws0 : BWs) : BldOut :=
  let ws1 := bldPrepare inp ws0
  -- build.py:1160-1161
  let buildInputHashes := inp.depHashes
  if inp.checkoutOnly then
    { ws := ws1, scriptInvoked := false, errorRaised := false, preRunWs := none }
  else if !inp.force && decide (ws1.inputHashes = PyVal.plist buildInputHashes) then
    -- build.py:1165-1171: skip; rehash in incremental mode
    let ws2 := if !inp.cleanBuild then { ws1 with resultHash := inp.devHash } else ws1
    { ws := ws2, scriptInvoked := false, errorRaised := false, preRunWs := none }
  else
    -- build.py:1177-1178: squash state before running the script
    let pre := { ws1 with inputHashes := PyVal.pnone, resultHash := PyAtom.atime 0 }
    if !inp.scriptOk then
      { ws := pre, scriptInvoked := true, errorRaised := true, preRunWs := some pre }
    else
      -- build.py:1181-1185
      { ws := { pre with resultHash := inp.builtHash
                         variantId := PyVal.pbytes inp.incrementalVariantId
                         inputHashes := PyVal.plist buildInputHashes }
        scriptInvoked := true, errorRaised := false, preRunWs := some pre }

/-! ## Checkout step (`LocalBuilder._cookCheckoutStep`, build.py:997-1129) -/

/-- A checkout directory state: `{scm_subdir → digest}` with the `None` key as
the aggregate sentinel; a digest may itself be scrubbed to `None`. -/
abbrev CDict := List (Option String × PyAtom)

/-- Persistent record of a checkout workspace. -/
structure CWs where
  variantId : PyVal
  dirState : CDict
  inputHashes : PyVal
  resultHash : PyAtom
  deriving DecidableEq, Repr

/-- build.py:1019-1020: `checkoutState = scmDirectories ∪ {None: variant_id}`. -/
def composeCheckoutState (scmDirs : List (String × Bytes)) (variantId : Bytes) : CDict :=
  dinsert (scmDirs.map fun p => (some p.1, PyAtom.abytes p.2)) none
    (PyAtom.abytes variantId)

/-- build.py:1029-1039: with `--clean-checkout` every stored SCM digest that
still matches the new state but whose SCM reports `dirty` or `error` is
cleared (forcing a re-checkout of that directory). -/
def scrubClean (old : CDict) (checkoutState : CDict) (statusOf : String → String) :
    CDict :=
  old.map fun kv =>
    match kv.1 with
    | none => kv
    | some d =>
        if kv.2 ≠ cdGet checkoutState (some d) then kv
        else if statusOf d = "dirty" ∨ statusOf d = "error" then (some d, PyAtom.anone)
        else kv

/-- Inputs of one `_cookCheckoutStep` invocation.  `statusOf` is the SCM
status oracle, `pathExists` the filesystem oracle for SCM sub-paths,
`depHashes` the stored result hashes of the valid dependencies, `newHash`
the `hashWorkspace` result at the end. -/
structure CoIn where
  buildOnly : Bool
  force : Bool
  cleanCheckout : Bool
  deterministic : Bool
  created : Bool
  scmDirs : List (String × Bytes)
  variantId : Bytes
  incrementalVariantId : Bytes
  depHashes : List PyAtom
  statusOf : String → String
  pathExists : String → Bool
  scriptOk : Bool
  newHash : PyAtom

/-- Observable outcome of one `_cookCheckoutStep` invocation. -/
structure CoOut where
  ws : CWs
  buildOnlySkipped : Bool
  collision : Bool
  scriptInvoked : Bool
  executed : Bool
  errorRaised : Bool
  preRunWs : Option CWs

/-- build.py:1011-1016: the workspace record after the created-reset. -/
def coWs1 (inp : CoIn) (ws0 : CWs) : CWs :=
  if inp.created then
    { ws0 with dirState := [], inputHashes := PyVal.pnone, resultHash := PyAtom.anone }
  else ws0

/-- build.py:1029-1039: the in-memory `oldCheckoutState` after the optional
`--clean-checkout` scrub. -/
def coOld1 (inp : CoIn) (ws0 : CWs) : CDict :=
  if inp.cleanCheckout then
    scrubClean (coWs1 inp ws0).dirState
      (composeCheckoutState inp.scmDirs inp.variantId) inp.statusOf
  else (coWs1 inp ws0).dirState

/-- build.py:1043-1046: the rerun decision of the checkout step. -/
def coRerun (inp : CoIn) (ws0 : CWs) : Bool :=
  inp.force || !inp.deterministic ||
    decide ((coWs1 inp ws0).resultHash = PyAtom.anone) ||
    !(dictEqb (composeCheckoutState inp.scmDirs inp.variantId) (coOld1 inp ws0)) ||
    decide (PyVal.plist inp.depHashes ≠ (coWs1 inp ws0).inputHashes)

/-- build.py:1048-1059: `oldCheckoutState` after the attic loop deleted every
changed SCM directory entry (the rename itself is a filesystem action). -/
def coOld2 (inp : CoIn) (ws0 : CWs) : CDict :=
  (coOld1 inp ws0).filter fun kv =>
    decide (kv.1 = none) ||
      decide (kv.2 = cdGet (composeCheckoutState inp.scmDirs inp.variantId) kv.1)

/-- build.py:1065-1071: does a new SCM checkout collide with an existing
file in the workspace? -/
def coCollision (inp : CoIn) (ws0 : CWs) : Bool :=
  (composeCheckoutState inp.scmDirs inp.variantId).any fun kv =>
    match kv.1 with
    | none => false
    | some d =>
        !(d == ".") && decide (cdGet (coOld2 inp ws0) (some d) = PyAtom.anone) &&
          inp.pathExists d

/-- `LocalBuilder._cookCheckoutStep` (build.py:997-1129) over the persistent
record `ws0` of the source workspace.  Dep cooking, attic renames, audit and
live-build-id upload are outside the modelled state. -/
def cookCheckoutStep (inp : CoIn) (ws0 : CWs) : CoOut :=
  let ws1 := coWs1 inp ws0
  -- build.py:1019-1020
  let checkoutState := composeCheckoutState inp.scmDirs inp.variantId
  if inp.buildOnly && decide (ws1.resultHash ≠ PyAtom.anone) then
    -- build.py:1021-1027: skipped due to --build-only; still rehash below
    { ws := { ws1 with resultHash := inp.newHash }
      buildOnlySkipped := true, collision := false, scriptInvoked := false
      executed := false, errorRaised := false, preRunWs := none }
  else
    let checkoutInputHashes := inp.depHashes
    if coRerun inp ws0 then
      let old2 := coOld2 inp ws0
      -- build.py:1060: each attic deletion stores the shrunk state
      let ws2 := if old2 ≠ coOld1 inp ws0 then { ws1 with dirState := old2 } else ws1
      if coCollision inp ws0 then
        -- build.py:1070: raise BuildError (new checkout collides)
        { ws := ws2, buildOnlySkipped := false, collision := true
          scriptInvoked := false, executed := false, errorRaised := true
          preRunWs := none }
      else
        -- build.py:1077-1078: store the new SCM state without the sentinel
        let ws3 := { ws2 with dirState := checkoutState.filter fun kv => decide (kv.1 ≠ none) }
        -- build.py:1085-1086: forge the result hash if one exists
        let ws4 := if ws3.resultHash ≠ PyAtom.anone then
            { ws3 with resultHash := PyAtom.atime 0 } else ws3
        -- build.py:1090: run the checkout script
        if !inp.scriptOk then
          { ws := ws4, buildOnlySkipped := false, collision := false
            scriptInvoked := true, executed := false, errorRaised := true
            preRunWs := some ws4 }
        else
          -- build.py:1092-1096: reflect the new state
          let ws5 := { ws4 with dirState := checkoutState
                                inputHashes := PyVal.plist checkoutInputHashes
                                variantId := PyVal.pbytes inp.incrementalVariantId }
          -- build.py:1101-1105: always rehash
          { ws := { ws5 with resultHash := inp.newHash }
            buildOnlySkipped := false, collision := false, scriptInvoked := true
            executed := true, errorRaised := false, preRunWs := some ws4 }
    else
      -- build.py:1097-1105: skipped (fixed package); still rehash
      { ws := { ws1 with resultHash := inp.newHash }
        buildOnlySkipped := false, collision := false, scriptInvoked := false
        executed := false, errorRaised := false, preRunWs := none }

/-! ## Mispredict recovery (`__handleChangedBuildId`, build.py:1447-1469) and
the scheduler's restart loop (`cook`, build.py:890-942) -/

/-- `LocalBuilder.__invalidateLiveBuildId` (build.py:1334-1340): delete the
stored live-id under `b"\x00"+sandbox_variant_id` if present. -/
def invalidateLiveBuildId (b : BuilderMem) (sandboxVariantId : Bytes) : BuilderMem :=
  match dlookup b.stateBuildIds (0 :: sandboxVariantId) with
  | some _ =>
      { b with stateBuildIds := derase b.stateBuildIds (0 :: sandboxVariantId) }
  | none => b

/-- `LocalBuilder.__handleChangedBuildId` (build.py:1447-1469).  The returned
flag is the raised `RestartBuildException`. -/
def handleChangedBuildId (b : BuilderMem) (path : String)
    (variantId sandboxVariantId checkoutHash : Bytes) : BuilderMem × Bool :=
  let b := invalidateLiveBuildId b sandboxVariantId
  let b := { b with
             srcBuildIds := dinsert b.srcBuildIds (path, variantId) (checkoutHash, false)
             buildDistBuildIds := [] }
  let b := { b with wasRun := clearWasRun b.wasRun }
  (b, true)

/-- The per-run scheduler state reset at the top of `cook`'s outer loop
(build.py:910-916).  Task maps are abstracted to their keys. -/
structure SchedState where
  cookTasks : List String
  buildIdTasks : List String
  buildErrors : List BuildErrorE
  restart : Bool
  running : Bool
  deriving Repr

/-- One `while self.__restart` iteration's entry (build.py:911-916): set
`running`, clear `restart`, empty `cookTasks`, `buildIdTasks`, `buildErrors`. -/
def cookIterReset (st : SchedState) : SchedState :=
  { st with running := true, restart := false, cookTasks := [], buildIdTasks := []
            buildErrors := [] }

/-- The outer restart loop of `LocalBuilder.cook` (build.py:909-938), fuelled
for totality.  `dispatch` abstracts the dispatcher coroutine cooking `steps`
(it may set `restart` when a task raised `RestartBuildException`,
build.py:865-870); the loop re-enters with the same `steps`. -/
def cookLoop (dispatch : List String → SchedState → SchedState) (steps : List String) :
    Nat → SchedState → SchedState
  | 0, st => st
  | fuel + 1, st =>
      if st.restart then
        cookLoop dispatch steps fuel (dispatch steps (cookIterReset st))
      else st

/-- `LocalBuilder.cook` enters its loop with `restart = True` (build.py:909). -/
def cook (dispatch : List String → SchedState → SchedState) (steps : List String)
    (fuel : Nat) (st : SchedState) : SchedState :=
  cookLoop dispatch steps fuel { st with restart := true }

/-! ## Develop-dir oracle (`DevelopDirOracle`, build.py:90-230) -/

/-- An oracle key: `recipe_name.encode("utf8") + step.getVariantId()`
(build.py:123), kept opaque. -/
abbrev DKey := String

/-- The oracle's in-memory pass-A state: `__visited`, `__known`, `__dirs`. -/
structure OracleSt where
  visited : List DKey
  known : List (DKey × String)
  dirs : List (String × List DKey)
  deriving DecidableEq, Repr

/-- Fresh oracle state (build.py:117-119). -/
def oracleInit : OracleSt := ⟨[], [], []⟩

/-- Python `str.startswith`, computed on the character lists. -/
def strStartsWith (p pre : String) : Bool :=
  pre.data.isPrefixOf p.data

/-- Does a path end in the separator?  (`str.endswith("/")`, computed on the
character list.) -/
def endsWithSlash (b : String) : Bool :=
  b.data.getLast? == some '/'

/-- `self.__dirs.setdefault(baseDir, []).append(key)` (build.py:152). -/
def queueDir (dirs : List (String × List DKey)) (baseDir : String) (key : DKey) :
    List (String × List DKey) :=
  match dlookup dirs baseDir with
  | some ks => dinsert dirs baseDir (ks ++ [key])
  | none => dirs ++ [(baseDir, [key])]

/-- One pass-A visit of `DevelopDirOracle.__fmt` (build.py:122-152, internal
algorithm, not ready yet): `db` is the `dirs` table, `baseDir` the formatter
result for this step.  A key is processed only once; a stored path is kept
exactly when it starts with the new `baseDir`, otherwise the key is queued. -/
def fmtVisit (db : List (DKey × String)) (st : OracleSt) (key : DKey)
    (baseDir : String) : OracleSt :=
  if key ∈ st.visited then st
  else
    let st := { st with visited := st.visited ++ [key] }
    match dlookup db key with
    | some path =>
        if strStartsWith path baseDir then { st with known := st.known ++ [(key, path)] }
        else { st with dirs := queueDir st.dirs baseDir key }
    | none => { st with dirs := queueDir st.dirs baseDir key }

/-- Pass A over the traversal order: every step contributes its key and its
formatter result (build.py:154-172 drives `__fmt` over all steps). -/
def passA (db : List (DKey × String)) (steps : List (DKey × String)) : OracleSt :=
  steps.foldl (fun st s => fmtVisit db st s.1 s.2) oracleInit

/-- Big-endian decimal digits of `n`, fuelled for structural recursion
(`fuel ≥ n` always holds at the call sites). -/
def natStrAux : Nat → Nat → List Char
  | 0, _ => []
  | fuel + 1, n =>
      if n = 0 then [] else natStrAux fuel (n / 10) ++ [Nat.digitChar (n % 10)]

/-- Python `str(num)` for the suffix numbers: decimal digits. -/
def natStr (n : Nat) : String :=
  if n = 0 then "0" else ⟨natStrAux n n⟩

/-- `os.path.join(baseDir, str(num))` (build.py:193): insert a separator
unless one is already there (the second argument is never absolute). -/
def joinPath (b : String) (n : Nat) : String :=
  if b = "" then natStr n
  else if endsWithSlash b then b ++ natStr n
  else b ++ "/" ++ natStr n

/-- The inner `while True` of `__writeBack` (build.py:192-197): try suffix
numbers from `num` upwards until the path is not reserved by a kept entry.
The loop always terminates because only finitely many paths are reserved;
the fuel (always called with `kd.length + 1`) only makes that explicit. -/
def findFreeAux (kd : List String) (b : String) : Nat → Nat → Nat
  | 0, num => num
  | fuel + 1, num =>
      if joinPath b num ∈ kd then findFreeAux kd b fuel (num + 1) else num

/-- The per-baseDir assignment loop of `__writeBack` (build.py:189-197):
each queued key gets the next free suffix, the counter keeps advancing. -/
def assignKeys (kd : List String) (b : String) : List DKey → Nat → List (DKey × String)
  | [], _ => []
  | k :: ks, num =>
      let n := findFreeAux kd b (kd.length + 1) num
      (k, joinPath b n) :: assignKeys kd b ks (n + 1)

/-- `DevelopDirOracle.__writeBack` (build.py:174-197): the new `dirs` table is
the kept entries followed by, per queued `baseDir` (numbering restarts at 1),
the assigned entries. -/
def writeBack (st : OracleSt) : List (DKey × String) :=
  let knownDirs := st.known.map Prod.snd
  st.known ++ (st.dirs.map fun p => assignKeys knownDirs p.1 p.2 1).flatten

/-- The pass-A keep decision, as a function of the processed steps: the first
step of a key determines its `baseDir`; the key is kept with its stored path
exactly when that path starts with the `baseDir`. -/
def keepSpec (db seen : List (DKey × String)) (k : DKey) : Option String :=
  match dlookup seen k, dlookup db k with
  | some b, some p => if strStartsWith p b then some p else none
  | _, _ => none

/-! ## Concrete inputs used by witnesses and counterexamples -/

/-- A concrete package-step input for witnesses: relocatable, depth 1,
`forced-fallback` config, failing download, fresh workspace. -/
def pkgInEx : PkgIn where
  checkoutOnly := false
  force := false
  depth := 1
  cfg := setDownloadMode true "forced-fallback" initialDownloadCfg
  isRelocatable := true
  hasSandbox := false
  variantId := [1]
  incrementalVariantId := [2]
  buildIdOracle := [3]
  created := true
  downloadOk := false
  downloadedHash := .abytes [4]
  builtHash := .abytes [5]
  depHashes := [.abytes [6]]
  scriptOk := true

/-- A fresh build/package workspace record. -/
def freshBWs : BWs where
  variantId := .pnone
  dirState := .pnone
  inputHashes := .pnone
  resultHash := .anone

/-- A checkout workspace with a previous result and stored input hashes. -/
def cexCWs : CWs where
  variantId := PyVal.pnone
  dirState := []
  inputHashes := PyVal.plist [PyAtom.abytes [7]]
  resultHash := PyAtom.abytes [9]

/-- A forced checkout over `cexCWs` with no SCM directories. -/
def cexCoIn : CoIn where
  buildOnly := false
  force := true
  cleanCheckout := false
  deterministic := true
  created := false
  scmDirs := []
  variantId := [1]
  incrementalVariantId := [2]
  depHashes := []
  statusOf := fun _ => "clean"
  pathExists := fun _ => false
  scriptOk := true
  newHash := PyAtom.abytes [3]

/-! ## Helper lemmas on the dictionary operations -/

theorem dlookup_dinsert {K V : Type} [DecidableEq K] (d : List (K × V)) (k : K) (v : V) :
    dlookup (dinsert d k v) k = some v := by
  induction d with
  | nil => simp [dinsert, dlookup]
  | cons h t ih =>
      by_cases hk : h.1 = k
      · simp [dinsert, hk, dlookup]
      · simp [dinsert, hk, dlookup, ih]

theorem dlookup_derase {K V : Type} [DecidableEq K] (d : List (K × V)) (k : K) :
    dlookup (derase d k) k = none := by
  induction d with
  | nil => rfl
  | cons h t ih =>
      by_cases hk : h.1 = k
      · simpa [derase, hk] using ih
      · simpa [derase, hk, dlookup] using ih

/-! ## Theorems about the embedded builder -/

/-- C8: a script invocation succeeds exactly when the wrapper exits with 0;
exit code `-SIGINT` raises the user-abort build error with the `--resume`
hint; any other non-zero code raises a build error whose message contains the
absolute wrapper script path. -/
theorem runShell_exit_codes (ret : Int) (absRunFile : String) :
    (runShellResult ret absRunFile = .ok () ↔ ret = 0) ∧
    (ret = -SIGINT →
      runShellResult ret absRunFile =
        .error ⟨"User aborted while running " ++ absRunFile, some resumeHelpAbort⟩) ∧
    (∃ a b, resumeHelpAbort = a ++ "--resume" ++ b) ∧
    (ret ≠ 0 → ret ≠ -SIGINT →
      ∃ pre post, runShellResult ret absRunFile =
        .error ⟨pre ++ absRunFile ++ post, some resumeHelpFail⟩) := by
  refine ⟨?_, ?_, ⟨"Run again with '", ?_⟩, ?_⟩
  · unfold runShellResult
    by_cases h : ret = -SIGINT
    · have h2 : ret ≠ 0 := by rw [h]; decide
      simp [h, h2, SIGINT]
    · by_cases h0 : ret = 0
      · simp [h, h0, SIGINT]
      · simp [h, h0]
  · intro h
    simp [runShellResult, h]
  · exact ⟨"' to skip already built packages.", by decide⟩
  · intro h0 hs
    refine ⟨"Build script ", " returned with " ++ toString ret, ?_⟩
    simp [runShellResult, h0, hs, String.append_assoc]

/-- Auxiliary: restoring the saved predicted build-ids with the flag set gives
back exactly the predicted entries. -/
theorem predicted_filter_map (l : SrcBuildIdMap) :
    ((l.filter fun e => e.2.2).map fun e => (e.1, e.2.1)).map
        (fun e => (e.1, (e.2, true))) = l.filter fun e => e.2.2 := by
  induction l with
  | nil => rfl
  | cons hd t ih =>
      rcases hd with ⟨a, x, y⟩
      by_cases hp : y = true
      · subst hp
        simp [List.filter_cons, ih]
      · have hy : y = false := by simpa using hp
        subst hy
        simp [List.filter_cons, ih]

/-- C9: `loadBuildState` after `saveBuildState` is the identity on the saved
data: the workspaces marked as run (minus the skipped ones) and the predicted
src-build-id entries (restored with the predicted flag set). -/
theorem saveLoad_roundTrip (b : BuilderMem) :
    (loadBuildState (saveBuildState b) b).wasRun =
      b.wasRun.filter (fun e => !((dlookup b.wasSkipped e.1).getD false)) ∧
    (loadBuildState (saveBuildState b) b).srcBuildIds =
      b.srcBuildIds.filter (fun e => e.2.2) := by
  refine ⟨rfl, ?_⟩
  simpa [loadBuildState, saveBuildState] using predicted_filter_map b.srcBuildIds

/-- C10: `_wasAlreadyRun` answers true only for an entry recording the step's
current variant-id; an entry with a different variant-id is deleted and the
answer is false; and when skipped entries are not acceptable a step recorded
as merely skipped is reported as not already run. -/
theorem wasAlreadyRun_spec (wasRun : WasRunMap) (wasSkipped : WasSkippedMap)
    (path : String) (vid : Bytes) (skippedOk : Bool) :
    ((wasAlreadyRun wasRun wasSkipped path vid skippedOk).1 = true →
      ∃ c, dlookup wasRun path = some (vid, c)) ∧
    (∀ vid' c, dlookup wasRun path = some (vid', c) → vid' ≠ vid →
      (wasAlreadyRun wasRun wasSkipped path vid skippedOk).1 = false ∧
      dlookup (wasAlreadyRun wasRun wasSkipped path vid skippedOk).2 path = none) ∧
    (skippedOk = false → (dlookup wasSkipped path).getD false = true →
      (wasAlreadyRun wasRun wasSkipped path vid skippedOk).1 = false) := by
  refine ⟨?_, ?_, ?_⟩
  · intro h
    rcases he : dlookup wasRun path with _ | ⟨d, c⟩
    · simp [wasAlreadyRun, he] at h
    · by_cases hd : d = vid
      · subst hd; exact ⟨c, rfl⟩
      · simp [wasAlreadyRun, he, hd] at h
  · intro vid' c he hne
    have hne' : vid' ≠ vid := hne
    constructor
    · simp [wasAlreadyRun, he, hne']
    · simp [wasAlreadyRun, he, hne', dlookup_derase]
  · intro hok hsk
    subst hok
    rcases he : dlookup wasRun path with _ | ⟨d, c⟩
    · simp [wasAlreadyRun, he]
    · by_cases hd : d = vid
      · subst hd; simp [wasAlreadyRun, he, hsk]
      · simp [wasAlreadyRun, he, hd]

/-- C1: after a checkout whose real hash differs from the predicted build-id,
`__handleChangedBuildId` deletes the stored live-id under
`b"\x00"+sandbox_variant_id`, replaces the cached src-build-id for
`(workspace_path, variant_id)` by the real hash marked non-predicted, clears
all cached non-checkout build-ids, keeps only the checkout entries of the
in-memory `was_run` map, and raises the restart that makes `cook`'s outer
loop re-enter — with the same root steps — after resetting the per-run task
maps and the error list. -/
theorem mispredict_recovery (b : BuilderMem) (path : String)
    (variantId sandboxVariantId checkoutHash : Bytes)
    (dispatch : List String → SchedState → SchedState) (steps : List String)
    (fuel : Nat) (st : SchedState) :
    dlookup (handleChangedBuildId b path variantId sandboxVariantId
      checkoutHash).1.stateBuildIds (0 :: sandboxVariantId) = none ∧
    dlookup (handleChangedBuildId b path variantId sandboxVariantId
      checkoutHash).1.srcBuildIds (path, variantId) = some (checkoutHash, false) ∧
    (handleChangedBuildId b path variantId sandboxVariantId
      checkoutHash).1.buildDistBuildIds = [] ∧
    (handleChangedBuildId b path variantId sandboxVariantId
      checkoutHash).1.wasRun = b.wasRun.filter (fun e => e.2.2) ∧
    (handleChangedBuildId b path variantId sandboxVariantId checkoutHash).2 = true ∧
    (st.restart = true →
      cookLoop dispatch steps (fuel + 1) st =
        cookLoop dispatch steps fuel (dispatch steps (cookIterReset st))) ∧
    (cookIterReset st).cookTasks = [] ∧
    (cookIterReset st).buildIdTasks = [] ∧
    (cookIterReset st).buildErrors = [] := by
  have hwr : (invalidateLiveBuildId b sandboxVariantId).wasRun = b.wasRun := by
    unfold invalidateLiveBuildId
    rcases h : dlookup b.stateBuildIds (0 :: sandboxVariantId) with _ | v <;> rfl
  refine ⟨?_, ?_, rfl, ?_, rfl, ?_, rfl, rfl, rfl⟩
  · show dlookup (invalidateLiveBuildId b sandboxVariantId).stateBuildIds
      (0 :: sandboxVariantId) = none
    unfold invalidateLiveBuildId
    rcases h : dlookup b.stateBuildIds (0 :: sandboxVariantId) with _ | v
    · exact h
    · exact dlookup_derase b.stateBuildIds (0 :: sandboxVariantId)
  · exact dlookup_dinsert _ _ _
  · show clearWasRun (invalidateLiveBuildId b sandboxVariantId).wasRun = _
    rw [hwr]
    rfl
  · intro h
    simp [cookLoop, h]

set_option maxHeartbeats 1000000 in
/-- Auxiliary: the `downloadInvoked` event of a package step, in every branch
of `_cookPackageStep`, is the build.py:1253 condition. -/
theorem cookPackageStep_downloadInvoked (inp : PkgIn) (ws0 : BWs) :
    (cookPackageStep inp ws0).downloadInvoked =
      pkgDownloadInvoked inp (pkgPrepare inp ws0) := by
  unfold cookPackageStep
  dsimp only
  split_ifs <;> rfl

set_option maxHeartbeats 1000000 in
/-- Auxiliary: the `buildIdComputed` event of a package step is the
build.py:1204 condition (relocatable or sandboxed). -/
theorem cookPackageStep_buildIdComputed (inp : PkgIn) (ws0 : BWs) :
    (cookPackageStep inp ws0).buildIdComputed =
      (inp.isRelocatable || inp.hasSandbox) := by
  unfold cookPackageStep
  dsimp only
  split_ifs <;> rfl

/-- C6: for a package step that is not relocatable and has no sandbox, no
package build-id is computed and the archive download is never attempted,
whatever the download mode and state. -/
theorem nonRelocatable_never_downloads (inp : PkgIn) (ws0 : BWs)
    (h1 : inp.isRelocatable = false) (h2 : inp.hasSandbox = false) :
    (cookPackageStep inp ws0).buildIdComputed = false ∧
    (cookPackageStep inp ws0).downloadInvoked = false := by
  have hb : packageBuildIdOf inp = none := by simp [packageBuildIdOf, h1, h2]
  constructor
  · rw [cookPackageStep_buildIdComputed]
    simp [h1, h2]
  · rw [cookPackageStep_downloadInvoked]
    simp [pkgDownloadInvoked, pkgTryDownload, hb, pyTruthy]

/-- C6 witness: a concrete non-relocatable, non-sandboxed package step
computes no build-id and never downloads. -/
theorem nonRelocatable_never_downloads_witness :
    (cookPackageStep { pkgInEx with isRelocatable := false } freshBWs).buildIdComputed
        = false ∧
    (cookPackageStep { pkgInEx with isRelocatable := false } freshBWs).downloadInvoked
        = false :=
  nonRelocatable_never_downloads { pkgInEx with isRelocatable := false } freshBWs
    rfl rfl

/-- Auxiliary: the download is only attempted at sufficient depth
(build.py:1239). -/
theorem cookPackageStep_download_depth (inp : PkgIn) (ws0 : BWs) :
    (cookPackageStep inp ws0).downloadInvoked = true →
    inp.cfg.downloadDepth ≤ inp.depth := by
  rw [cookPackageStep_downloadInvoked]
  intro h
  simp [pkgDownloadInvoked, pkgTryDownload] at h
  tauto

set_option maxHeartbeats 1000000 in
/-- Auxiliary: a failed download at forcing depth raises the build error and
nothing is built (build.py:1263-1264). -/
theorem cookPackageStep_forced_fail (inp : PkgIn) (ws0 : BWs) :
    (cookPackageStep inp ws0).downloadInvoked = true → inp.downloadOk = false →
    inp.cfg.downloadDepthForce ≤ inp.depth →
    (cookPackageStep inp ws0).errorRaised = true ∧
    (cookPackageStep inp ws0).scriptInvoked = false ∧
    (cookPackageStep inp ws0).workspaceChanged = false := by
  intro hdl hok hge
  rw [cookPackageStep_downloadInvoked] at hdl
  have hcond : (pkgDownloadInvoked inp (pkgPrepare inp ws0) && !inp.downloadOk &&
      decide (inp.cfg.downloadDepthForce ≤ inp.depth)) = true := by
    simp [hdl, hok, hge]
  unfold cookPackageStep
  simp only [hcond]
  simp

set_option maxHeartbeats 1000000 in
/-- C3: the download mode table matches the spec (`0xffff` standing for ∞),
a package step attempts a download only when its depth reaches
`downloadDepth`, and at depth `downloadDepthForce` or beyond a failed
download raises a build error instead of falling back to building. -/
theorem download_mode_semantics (mode : String) (canDL : Bool)
    (inp : PkgIn) (ws0 : BWs) (hm : mode ∈ downloadModes) :
    ((setDownloadMode canDL mode initialDownloadCfg).downloadDepth,
      (setDownloadMode canDL mode initialDownloadCfg).downloadDepthForce) =
        downloadModeTableSpec canDL mode ∧
    ((cookPackageStep inp ws0).downloadInvoked = true →
      inp.cfg.downloadDepth ≤ inp.depth) ∧
    ((cookPackageStep inp ws0).downloadInvoked = true → inp.downloadOk = false →
      inp.cfg.downloadDepthForce ≤ inp.depth →
      (cookPackageStep inp ws0).errorRaised = true ∧
      (cookPackageStep inp ws0).scriptInvoked = false ∧
      (cookPackageStep inp ws0).workspaceChanged = false) := by
  refine ⟨?_, cookPackageStep_download_depth inp ws0, cookPackageStep_forced_fail inp ws0⟩
  fin_cases hm <;> cases canDL <;> rfl

/-- C3 witness: the `forced-fallback` table entry, and a failing download at
depth 1 raising the error. -/
theorem download_mode_semantics_witness :
    (((setDownloadMode true "forced-fallback" initialDownloadCfg).downloadDepth,
      (setDownloadMode true "forced-fallback" initialDownloadCfg).downloadDepthForce) =
        downloadModeTableSpec true "forced-fallback" ∧
    ((cookPackageStep pkgInEx freshBWs).downloadInvoked = true →
      pkgInEx.cfg.downloadDepth ≤ pkgInEx.depth) ∧
    ((cookPackageStep pkgInEx freshBWs).downloadInvoked = true →
      pkgInEx.downloadOk = false →
      pkgInEx.cfg.downloadDepthForce ≤ pkgInEx.depth →
      (cookPackageStep pkgInEx freshBWs).errorRaised = true ∧
      (cookPackageStep pkgInEx freshBWs).scriptInvoked = false ∧
      (cookPackageStep pkgInEx freshBWs).workspaceChanged = false)) :=
  download_mode_semantics "forced-fallback" true pkgInEx freshBWs (by decide)

/-- C4: a package step that completes with a changed workspace stores
`input_hashes` as the bare build-id when downloaded and as the list
`[build-id, *dep hashes]` when built locally; and the decoder classifies a
stored value into exactly these two shapes plus the legacy pass-through. -/
theorem package_inputHashes_shape (inp : PkgIn) (ws0 : BWs) :
    ((cookPackageStep inp ws0).errorRaised = false →
      (cookPackageStep inp ws0).workspaceChanged = true →
      ((cookPackageStep inp ws0).wasDownloaded = true →
        (cookPackageStep inp ws0).ws.inputHashes = pyValOfOpt (packageBuildIdOf inp)) ∧
      ((cookPackageStep inp ws0).wasDownloaded = false →
        (cookPackageStep inp ws0).ws.inputHashes =
          PyVal.plist (pyAtomOfOpt (packageBuildIdOf inp) :: inp.depHashes))) ∧
    (∀ h t, decodeInputHashes (PyVal.plist (h :: t)) = (h.toVal, PyVal.plist t, false)) ∧
    (∀ bs, decodeInputHashes (PyVal.pbytes bs) = (PyVal.pbytes bs, PyVal.pnone, true)) ∧
    (∀ v, (∀ h t, v ≠ PyVal.plist (h :: t)) → (∀ bs, v ≠ PyVal.pbytes bs) →
      decodeInputHashes v = (v, v, false)) := by
  refine ⟨?_, fun h t => rfl, fun bs => rfl, ?_⟩
  · unfold cookPackageStep
    dsimp only
    split_ifs <;> simp
  · intro v h1 h2
    cases v with
    | pnone => rfl
    | pbytes bs => exact absurd rfl (h2 bs)
    | pstr s => rfl
    | ptime t => rfl
    | plist l =>
        cases l with
        | nil => rfl
        | cons h t => exact absurd rfl (h1 h t)

set_option maxHeartbeats 1000000 in
/-- C5 (amended): a build or package step clears `input_hashes` and sets the
timestamp sentinel as `result_hash` before its script runs, and on a script
failure that squashed state is what remains; a checkout step leaves
`input_hashes` untouched before the run and sets the sentinel only when the
workspace already had a result hash.  Real values are stored only after the
script succeeds. -/
theorem squash_before_run (binp : BldIn) (bws : BWs) (pinp : PkgIn) (pws : BWs)
    (cinp : CoIn) (cws : CWs) :
    ((cookBuildStep binp bws).scriptInvoked = true →
      ∃ pre, (cookBuildStep binp bws).preRunWs = some pre ∧
        pre.inputHashes = PyVal.pnone ∧ pre.resultHash = PyAtom.atime 0) ∧
    ((cookBuildStep binp bws).scriptInvoked = true →
      (cookBuildStep binp bws).errorRaised = true →
      (cookBuildStep binp bws).ws.inputHashes = PyVal.pnone ∧
      (cookBuildStep binp bws).ws.resultHash = PyAtom.atime 0) ∧
    ((cookPackageStep pinp pws).scriptInvoked = true →
      ∃ pre, (cookPackageStep pinp pws).preRunWs = some pre ∧
        pre.inputHashes = PyVal.pnone ∧ pre.resultHash = PyAtom.atime 0) ∧
    ((cookPackageStep pinp pws).scriptInvoked = true →
      (cookPackageStep pinp pws).errorRaised = true →
      (cookPackageStep pinp pws).ws.inputHashes = PyVal.pnone ∧
      (cookPackageStep pinp pws).ws.resultHash = PyAtom.atime 0) ∧
    ((cookCheckoutStep cinp cws).scriptInvoked = true →
      ∃ pre, (cookCheckoutStep cinp cws).preRunWs = some pre ∧
        pre.inputHashes = (coWs1 cinp cws).inputHashes ∧
        pre.resultHash = (if (coWs1 cinp cws).resultHash ≠ PyAtom.anone
                          then PyAtom.atime 0 else PyAtom.anone)) := by
  refine ⟨?_, ?_, ?_, ?_, ?_⟩
  · unfold cookBuildStep
    dsimp only
    split_ifs <;> simp
  · unfold cookBuildStep
    dsimp only
    split_ifs <;> simp
  · unfold cookPackageStep
    dsimp only
    split_ifs <;> simp
  · unfold cookPackageStep
    dsimp only
    split_ifs <;> simp
  · unfold cookCheckoutStep
    dsimp only
    split_ifs <;> simp_all

/-- C5 counterexample: at a concrete forced checkout the script runs while
the stored `input_hashes` of the workspace is NOT cleared (it still holds the
previous run's dependency hashes), contradicting the claim that every step
clears `input_hashes` before executing its script. -/
theorem squash_before_run_cex :
    (cookCheckoutStep cexCoIn cexCWs).scriptInvoked = true ∧
    (cookCheckoutStep cexCoIn cexCWs).preRunWs =
      some { variantId := PyVal.pnone, dirState := []
             inputHashes := PyVal.plist [PyAtom.abytes [7]]
             resultHash := PyAtom.atime 0 } ∧
    PyVal.plist [PyAtom.abytes [7]] ≠ PyVal.pnone := by
  refine ⟨rfl, ?_, by decide⟩
  rfl

/-- Auxiliary: the build.py:1043-1046 rerun condition, spelled out. -/
theorem coRerun_iff (inp : CoIn) (ws0 : CWs) :
    coRerun inp ws0 = true ↔
      (inp.force = true ∨ inp.deterministic = false ∨
       (coWs1 inp ws0).resultHash = PyAtom.anone ∨
       dictEqb (composeCheckoutState inp.scmDirs inp.variantId) (coOld1 inp ws0) = false ∨
       PyVal.plist inp.depHashes ≠ (coWs1 inp ws0).inputHashes) := by
  simp [coRerun, Bool.or_eq_true, Bool.not_eq_true']
  tauto

set_option maxHeartbeats 1000000 in
/-- C2: outside of the build-only skip (and absent a workspace collision
error), the checkout script runs exactly when one of the build.py:1043-1046
conditions holds: `--force`, a non-deterministic step, no stored result hash,
a changed checkout state (SCM directories plus the variant-id sentinel,
after the `--clean-checkout` scrub), or changed dependency input hashes. -/
theorem checkout_rerun_iff (inp : CoIn) (ws0 : CWs)
    (hskip : (cookCheckoutStep inp ws0).buildOnlySkipped = false)
    (hcol : (cookCheckoutStep inp ws0).collision = false) :
    ((cookCheckoutStep inp ws0).scriptInvoked = true ↔
      (inp.force = true ∨ inp.deterministic = false ∨
       (coWs1 inp ws0).resultHash = PyAtom.anone ∨
       dictEqb (composeCheckoutState inp.scmDirs inp.variantId) (coOld1 inp ws0) = false ∨
       PyVal.plist inp.depHashes ≠ (coWs1 inp ws0).inputHashes)) := by
  rw [← coRerun_iff inp ws0]
  unfold cookCheckoutStep at *
  dsimp only at *
  split_ifs at * <;> simp_all

/-- C2 witness: the forced concrete checkout of `cexCoIn` runs its script,
and the rerun condition holds there. -/
theorem checkout_rerun_iff_witness :
    ((cookCheckoutStep cexCoIn cexCWs).scriptInvoked = true ↔
      (cexCoIn.force = true ∨ cexCoIn.deterministic = false ∨
       (coWs1 cexCoIn cexCWs).resultHash = PyAtom.anone ∨
       dictEqb (composeCheckoutState cexCoIn.scmDirs cexCoIn.variantId)
         (coOld1 cexCoIn cexCWs) = false ∨
       PyVal.plist cexCoIn.depHashes ≠ (coWs1 cexCoIn cexCWs).inputHashes)) :=
  checkout_rerun_iff cexCoIn cexCWs rfl rfl

/-! ## Develop-dir oracle: auxiliary lemmas -/

theorem dlookup_append {K V : Type} [DecidableEq K] (xs ys : List (K × V)) (k : K) :
    dlookup (xs ++ ys) k =
      match dlookup xs k with
      | some v => some v
      | none => dlookup ys k := by
  induction xs with
  | nil => rfl
  | cons h t ih => by_cases hk : h.1 = k <;> simp [dlookup, hk, ih]

theorem dlookup_eq_none_iff {K V : Type} [DecidableEq K] (d : List (K × V)) (k : K) :
    dlookup d k = none ↔ k ∉ d.map Prod.fst := by
  induction d with
  | nil => simp [dlookup]
  | cons h t ih =>
      by_cases hk : h.1 = k
      · simp [dlookup, hk]
      · simp [dlookup, hk, ih, Ne.symm hk]

theorem dlookup_dinsert_ne {K V : Type} [DecidableEq K] (d : List (K × V))
    (k k' : K) (v : V) (h : k' ≠ k) :
    dlookup (dinsert d k v) k' = dlookup d k' := by
  have h' : ¬(k = k') := fun hh => h hh.symm
  induction d with
  | nil => simp [dinsert, dlookup, h']
  | cons hd t ih =>
      by_cases hk : hd.1 = k
      · simp [dinsert, hk, dlookup, h']
      · by_cases hk' : hd.1 = k' <;> simp [dinsert, hk, dlookup, hk', ih, h]

theorem dinsert_keys_of_mem {K V : Type} [DecidableEq K] (d : List (K × V))
    (k : K) (v : V) (h : (dlookup d k).isSome) :
    (dinsert d k v).map Prod.fst = d.map Prod.fst := by
  induction d with
  | nil => simp [dlookup] at h
  | cons hd t ih =>
      by_cases hk : hd.1 = k
      · simp [dinsert, hk]
      · simp [dlookup, hk] at h
        simp [dinsert, hk, ih h]

theorem map_digitChar_inj : ∀ (l1 l2 : List Nat), (∀ x ∈ l1, x < 10) →
    (∀ x ∈ l2, x < 10) → l1.map Nat.digitChar = l2.map Nat.digitChar → l1 = l2
  | [], [], _, _, _ => rfl
  | [], _ :: _, _, _, h => by simp at h
  | _ :: _, [], _, _, h => by simp at h
  | a :: t1, b :: t2, h1, h2, h => by
      simp only [List.map_cons, List.cons.injEq] at h
      have key : ∀ a, a < 10 → ∀ b, b < 10 → Nat.digitChar a = Nat.digitChar b → a = b := by
        decide
      have hab : a = b := key a (h1 a (by simp)) b (h2 b (by simp)) h.1
      have ht := map_digitChar_inj t1 t2 (fun x hx => h1 x (by simp [hx]))
        (fun x hx => h2 x (by simp [hx])) h.2
      simp [hab, ht]

theorem natStrAux_eq_digits : ∀ (fuel n : Nat), n ≤ fuel →
    natStrAux fuel n = ((Nat.digits 10 n).map Nat.digitChar).reverse
  | 0, n, hle => by
      have : n = 0 := Nat.le_zero.mp hle
      subst this
      simp [natStrAux]
  | fuel + 1, n, hle => by
      by_cases hn : n = 0
      · subst hn
        simp [natStrAux]
      · have hlt : n / 10 < n := Nat.div_lt_self (Nat.pos_of_ne_zero hn) (by norm_num)
        have hrec := natStrAux_eq_digits fuel (n / 10) (by omega)
        rw [natStrAux, if_neg hn, hrec,
          Nat.digits_def' (by norm_num : (1 : Nat) < 10) (Nat.pos_of_ne_zero hn)]
        simp

theorem natStr_eq_digits (n : Nat) :
    natStr n = if n = 0 then "0" else ⟨((Nat.digits 10 n).map Nat.digitChar).reverse⟩ := by
  unfold natStr
  by_cases hn : n = 0
  · simp [hn]
  · rw [if_neg hn, if_neg hn, natStrAux_eq_digits n n (le_refl n)]

theorem natStr_inj (m n : Nat) (h : natStr m = natStr n) : m = n := by
  have digs : ∀ j : Nat, ∀ x ∈ Nat.digits 10 j, x < 10 := fun j x hx =>
    Nat.digits_lt_base (by norm_num) hx
  rw [natStr_eq_digits, natStr_eq_digits] at h
  by_cases hm : m = 0 <;> by_cases hn : n = 0
  · rw [hm, hn]
  · rw [if_pos hm, if_neg hn] at h
    have hd : ("0" : String).data = (((Nat.digits 10 n).map Nat.digitChar).reverse : List Char) := congrArg String.data h
    have : ['0'] = ((Nat.digits 10 n).map Nat.digitChar).reverse := hd
    have h2 : (Nat.digits 10 n).map Nat.digitChar = ['0'] := by
      have := congrArg List.reverse this
      simpa using this.symm
    have h3 : Nat.digits 10 n = [0] := by
      have h0 : ([0] : List Nat).map Nat.digitChar = ['0'] := by decide
      exact map_digitChar_inj _ _ (digs n) (by norm_num) (h2.trans h0.symm)
    have := Nat.ofDigits_digits 10 n
    rw [h3] at this
    simp [Nat.ofDigits] at this
    exact absurd this.symm hn
  · rw [if_neg hm, if_pos hn] at h
    have hd : (((Nat.digits 10 m).map Nat.digitChar).reverse : List Char) = ("0" : String).data := congrArg String.data h
    have : ((Nat.digits 10 m).map Nat.digitChar).reverse = ['0'] := hd
    have h2 : (Nat.digits 10 m).map Nat.digitChar = ['0'] := by
      have := congrArg List.reverse this
      simpa using this
    have h3 : Nat.digits 10 m = [0] := by
      have h0 : ([0] : List Nat).map Nat.digitChar = ['0'] := by decide
      exact map_digitChar_inj _ _ (digs m) (by norm_num) (h2.trans h0.symm)
    have := Nat.ofDigits_digits 10 m
    rw [h3] at this
    simp [Nat.ofDigits] at this
    exact absurd this.symm hm
  · rw [if_neg hm, if_neg hn] at h
    have hd := congrArg String.data h
    have h2 : ((Nat.digits 10 m).map Nat.digitChar).reverse =
        ((Nat.digits 10 n).map Nat.digitChar).reverse := hd
    have h3 : (Nat.digits 10 m).map Nat.digitChar = (Nat.digits 10 n).map Nat.digitChar := by
      have := congrArg List.reverse h2
      simpa using this
    have h4 := map_digitChar_inj _ _ (digs m) (digs n) h3
    have hm' := Nat.ofDigits_digits 10 m
    have hn' := Nat.ofDigits_digits 10 n
    rw [h4] at hm'
    exact hm'.symm.trans hn'

theorem natStr_no_slash (n : Nat) : ('/' : Char) ∉ (natStr n).data := by
  have key : ∀ d, d < 10 → Nat.digitChar d ≠ '/' := by decide
  rw [natStr_eq_digits]
  by_cases hn : n = 0
  · rw [if_pos hn]
    decide
  · rw [if_neg hn]
    intro hmem
    have : ('/' : Char) ∈ (Nat.digits 10 n).map Nat.digitChar := by
      simpa using hmem
    rcases List.mem_map.mp this with ⟨d, hd, hdc⟩
    exact key d (Nat.digits_lt_base (by norm_num) hd) hdc

theorem strExt (s t : String) (h : s.data = t.data) : s = t := by
  cases s
  cases t
  exact congrArg String.mk h

theorem joinPath_eq (b : String) (n : Nat) (hb : b ≠ "") (hs : endsWithSlash b = false) :
    joinPath b n = b ++ "/" ++ natStr n := by
  simp [joinPath, hb, hs]

theorem joinPath_num_inj (b : String) (m n : Nat) (h : joinPath b m = joinPath b n) :
    m = n := by
  unfold joinPath at h
  split_ifs at h
  · exact natStr_inj _ _ h
  · have hd := congrArg String.data h
    rw [String.data_append, String.data_append] at hd
    exact natStr_inj _ _ (strExt _ _ (List.append_cancel_left hd))
  · have hd := congrArg String.data h
    rw [String.data_append, String.data_append, String.data_append,
      String.data_append] at hd
    rw [List.append_assoc, List.append_assoc] at hd
    exact natStr_inj _ _ (strExt _ _ (List.append_cancel_left
      (List.append_cancel_left hd)))

theorem sep_split_inj {α : Type} : ∀ (xs1 xs2 ys1 ys2 : List α) (c : α),
    c ∉ ys1 → c ∉ ys2 → xs1 ++ c :: ys1 = xs2 ++ c :: ys2 → xs1 = xs2 ∧ ys1 = ys2
  | [], [], ys1, ys2, c, _, _, h => ⟨rfl, by simpa using h⟩
  | [], x :: xs2, ys1, ys2, c, hy1, _, h => by
      simp only [List.nil_append, List.cons_append, List.cons.injEq] at h
      refine absurd ?_ hy1
      rw [h.2]
      exact List.mem_append_right _ (List.mem_cons_self _ _)
  | x :: xs1, [], ys1, ys2, c, _, hy2, h => by
      simp only [List.nil_append, List.cons_append, List.cons.injEq] at h
      refine absurd ?_ hy2
      rw [← h.2]
      exact List.mem_append_right _ (List.mem_cons_self _ _)
  | x :: xs1, x2 :: xs2, ys1, ys2, c, hy1, hy2, h => by
      simp only [List.cons_append, List.cons.injEq] at h
      obtain ⟨h1, h2⟩ := sep_split_inj xs1 xs2 ys1 ys2 c hy1 hy2 h.2
      simp [h.1, h1, h2]

theorem joinPath_cross_inj (b1 b2 : String) (m n : Nat)
    (hb1 : b1 ≠ "") (hs1 : endsWithSlash b1 = false)
    (hb2 : b2 ≠ "") (hs2 : endsWithSlash b2 = false)
    (h : joinPath b1 m = joinPath b2 n) : b1 = b2 ∧ m = n := by
  rw [joinPath_eq b1 m hb1 hs1, joinPath_eq b2 n hb2 hs2] at h
  have hd := congrArg String.data h
  rw [String.data_append, String.data_append, String.data_append,
    String.data_append] at hd
  have hd' : b1.data ++ ('/' : Char) :: (natStr m).data =
      b2.data ++ ('/' : Char) :: (natStr n).data := by
    simpa [List.append_assoc] using hd
  obtain ⟨h1, h2⟩ := sep_split_inj b1.data b2.data (natStr m).data (natStr n).data '/'
    (natStr_no_slash m) (natStr_no_slash n) hd'
  exact ⟨strExt _ _ h1, natStr_inj _ _ (strExt _ _ h2)⟩

theorem findFreeAux_ge (kd : List String) (b : String) : ∀ (fuel num : Nat),
    num ≤ findFreeAux kd b fuel num
  | 0, num => le_refl num
  | fuel + 1, num => by
      unfold findFreeAux
      split_ifs with h
      · exact le_trans (Nat.le_succ num) (findFreeAux_ge kd b fuel (num + 1))
      · exact le_refl num

theorem findFreeAux_occupied (kd : List String) (b : String) : ∀ (fuel num : Nat),
    joinPath b (findFreeAux kd b fuel num) ∈ kd → ∀ i < fuel, joinPath b (num + i) ∈ kd
  | 0, _ => fun _ i hi => absurd hi (Nat.not_lt_zero i)
  | fuel + 1, num => by
      intro hres i hi
      unfold findFreeAux at hres
      split_ifs at hres with h
      · cases i with
        | zero => simpa using h
        | succ j =>
            have hrec := findFreeAux_occupied kd b fuel (num + 1) hres j (by omega)
            have e : num + 1 + j = num + (j + 1) := by omega
            rwa [e] at hrec
      · exact absurd hres h

theorem findFreeAux_free (kd : List String) (b : String) (num : Nat) :
    joinPath b (findFreeAux kd b (kd.length + 1) num) ∉ kd := by
  intro hmem
  have hall := findFreeAux_occupied kd b (kd.length + 1) num hmem
  have hinj : Function.Injective (fun i => joinPath b (num + i)) := by
    intro i j hij
    have := joinPath_num_inj b _ _ hij
    omega
  have hnd : ((List.range (kd.length + 1)).map (fun i => joinPath b (num + i))).Nodup :=
    (List.nodup_range _).map hinj
  have hsub : ∀ x ∈ (List.range (kd.length + 1)).map (fun i => joinPath b (num + i)),
      x ∈ kd := by
    intro x hx
    rcases List.mem_map.mp hx with ⟨i, hi, rfl⟩
    exact hall i (List.mem_range.mp hi)
  have h1 := List.toFinset_card_of_nodup hnd
  have h2 : ((List.range (kd.length + 1)).map
      (fun i => joinPath b (num + i))).toFinset ⊆ kd.toFinset := by
    intro x hx
    rw [List.mem_toFinset] at *
    exact hsub x hx
  have h3 := Finset.card_le_card h2
  have h4 := List.toFinset_card_le kd
  rw [h1] at h3
  simp only [List.length_map, List.length_range] at h3
  omega

theorem assignKeys_mem_form (kd : List String) (b : String) :
    ∀ (ks : List DKey) (num : Nat) (k : DKey) (p : String),
    (k, p) ∈ assignKeys kd b ks num →
    ∃ n, num ≤ n ∧ p = joinPath b n ∧ joinPath b n ∉ kd
  | [], _, _, _, h => absurd h (List.not_mem_nil _)
  | k' :: ks, num, k, p, h => by
      unfold assignKeys at h
      rcases List.mem_cons.mp h with h | h
      · obtain ⟨-, h2⟩ := Prod.mk.injEq .. ▸ h
        exact ⟨findFreeAux kd b (kd.length + 1) num, findFreeAux_ge kd b _ num,
          h2, findFreeAux_free kd b num⟩
      · obtain ⟨n, hn, hp, hfree⟩ := assignKeys_mem_form kd b ks
          (findFreeAux kd b (kd.length + 1) num + 1) k p h
        have := findFreeAux_ge kd b (kd.length + 1) num
        exact ⟨n, by omega, hp, hfree⟩

theorem assignKeys_dlookup (kd : List String) (b : String) :
    ∀ (ks : List DKey) (num : Nat) (k : DKey), k ∈ ks →
    ∃ n, num ≤ n ∧ dlookup (assignKeys kd b ks num) k = some (joinPath b n) ∧
      joinPath b n ∉ kd
  | [], _, _, h => absurd h (List.not_mem_nil _)
  | k' :: ks, num, k, h => by
      by_cases he : k' = k
      · subst he
        exact ⟨findFreeAux kd b (kd.length + 1) num, findFreeAux_ge kd b _ num,
          by simp [assignKeys, dlookup], findFreeAux_free kd b num⟩
      · have hk : k ∈ ks := by
          rcases List.mem_cons.mp h with h | h
          · exact absurd h.symm he
          · exact h
        obtain ⟨n, hn, hl, hfree⟩ := assignKeys_dlookup kd b ks
          (findFreeAux kd b (kd.length + 1) num + 1) k hk
        have := findFreeAux_ge kd b (kd.length + 1) num
        refine ⟨n, by omega, ?_, hfree⟩
        simpa [assignKeys, dlookup, he] using hl

theorem assignKeys_keys (kd : List String) (b : String) :
    ∀ (ks : List DKey) (num : Nat), (assignKeys kd b ks num).map Prod.fst = ks
  | [], _ => rfl
  | k' :: ks, num => by
      simp [assignKeys, assignKeys_keys kd b ks]

theorem assignKeys_paths_nodup (kd : List String) (b : String) :
    ∀ (ks : List DKey) (num : Nat), ((assignKeys kd b ks num).map Prod.snd).Nodup
  | [], _ => List.nodup_nil
  | k' :: ks, num => by
      simp only [assignKeys, List.map_cons, List.nodup_cons]
      refine ⟨?_, assignKeys_paths_nodup kd b ks _⟩
      intro hmem
      rcases List.mem_map.mp hmem with ⟨⟨k2, p2⟩, hmem2, hp2⟩
      obtain ⟨n, hn, hp, -⟩ := assignKeys_mem_form kd b ks _ k2 p2 hmem2
      have hp2' : p2 = joinPath b (findFreeAux kd b (kd.length + 1) num) := hp2
      have := joinPath_num_inj b _ _ (hp2'.symm.trans hp)
      omega

theorem dlookup_dinsert_self {K V : Type} [DecidableEq K] (d : List (K × V))
    (k : K) (v : V) : dlookup (dinsert d k v) k = some v :=
  dlookup_dinsert d k v

theorem queueDir_mem (dirs : List (String × List DKey)) (bd' : String) (key : DKey)
    (bd : String) (k : DKey) :
    (k ∈ (dlookup (queueDir dirs bd' key) bd).getD []) ↔
      (k ∈ (dlookup dirs bd).getD [] ∨ (bd = bd' ∧ k = key)) := by
  unfold queueDir
  rcases h : dlookup dirs bd' with _ | ks
  · by_cases hb : bd = bd'
    · subst hb
      rw [dlookup_append, h]
      simp [dlookup]
    · rw [dlookup_append]
      have hne : bd' ≠ bd := fun hh => hb hh.symm
      rcases h2 : dlookup dirs bd with _ | ks2
      · simp [dlookup, hne, hb]
      · simp [hb]
  · by_cases hb : bd = bd'
    · subst hb
      rw [dlookup_dinsert_self]
      simp [h]
    · rw [dlookup_dinsert_ne _ _ _ _ hb]
      simp [hb]

theorem passA_fold_inv (db : List (DKey × String)) :
    ∀ (L : List (DKey × String)) (st : OracleSt) (seen : List (DKey × String)),
    (∀ k, k ∈ st.visited ↔ (dlookup seen k).isSome = true) →
    (∀ k, dlookup st.known k = keepSpec db seen k) →
    (∀ bd k, k ∈ (dlookup st.dirs bd).getD [] ↔
      (dlookup seen k = some bd ∧ keepSpec db seen k = none)) →
    (∀ k, k ∈ (L.foldl (fun st s => fmtVisit db st s.1 s.2) st).visited ↔
      (dlookup (seen ++ L) k).isSome = true) ∧
    (∀ k, dlookup (L.foldl (fun st s => fmtVisit db st s.1 s.2) st).known k =
      keepSpec db (seen ++ L) k) ∧
    (∀ bd k, k ∈ (dlookup (L.foldl (fun st s => fmtVisit db st s.1 s.2) st).dirs bd).getD []
      ↔ (dlookup (seen ++ L) k = some bd ∧ keepSpec db (seen ++ L) k = none))
  | [], st, seen, hv, hk, hq => by
      simpa using ⟨hv, hk, hq⟩
  | s :: L, st, seen, hv, hk, hq => by
      by_cases hvis : s.1 ∈ st.visited
      · -- already visited: state unchanged, the new step changes no lookup
        have hseen : ∀ k, dlookup (seen ++ [s]) k = dlookup seen k := by
          intro k
          rw [dlookup_append]
          rcases hsk : dlookup seen k with _ | v
          · by_cases he : s.1 = k
            · subst he
              have := (hv s.1).mp hvis
              rw [hsk] at this
              simp at this
            · simp [dlookup, he]
          · rfl
        have hks : ∀ k, keepSpec db (seen ++ [s]) k = keepSpec db seen k := by
          intro k
          unfold keepSpec
          rw [hseen]
        have main := passA_fold_inv db L st (seen ++ [s])
          (fun k => by rw [hseen]; exact hv k)
          (fun k => by rw [hks]; exact hk k)
          (fun bd k => by rw [hseen, hks]; exact hq bd k)
        have heq : (seen ++ [s]) ++ L = seen ++ s :: L := by
          rw [List.append_assoc]
          rfl
        rw [heq] at main
        simpa [List.foldl, fmtVisit, hvis] using main
      · -- first visit
        have hnone : dlookup seen s.1 = none := by
          rcases hsk : dlookup seen s.1 with _ | v
          · rfl
          · have := (hv s.1).mpr (by rw [hsk]; rfl)
            exact absurd this hvis
        have hseen : ∀ k, dlookup (seen ++ [s]) k =
            if s.1 = k then some s.2 else dlookup seen k := by
          intro k
          rw [dlookup_append]
          rcases hsk : dlookup seen k with _ | v
          · simp [dlookup]
          · by_cases he : s.1 = k
            · subst he
              rw [hsk] at hnone
              exact absurd hnone (by simp)
            · simp [he]
        have hvis' : ∀ k, k ∈ st.visited ++ [s.1] ↔
            (dlookup (seen ++ [s]) k).isSome = true := by
          intro k
          rw [hseen]
          by_cases he : s.1 = k
          · subst he
            simp
          · simp [he, Ne.symm he, hv k]
        -- case split on the keep decision
        rcases hdb : dlookup db s.1 with _ | p
        · -- no stored path: queue
          have hks : ∀ k, keepSpec db (seen ++ [s]) k = keepSpec db seen k := by
            intro k
            unfold keepSpec
            rw [hseen]
            by_cases he : s.1 = k
            · subst he
              rw [hnone, hdb]
              simp
            · simp [he]
          have main := passA_fold_inv db L
            { st with visited := st.visited ++ [s.1], dirs := queueDir st.dirs s.2 s.1 }
            (seen ++ [s])
            (fun k => hvis' k)
            (fun k => by rw [hks]; exact hk k)
            (fun bd k => by
              rw [hks]
              show k ∈ (dlookup (queueDir st.dirs s.2 s.1) bd).getD [] ↔ _
              rw [queueDir_mem, hq bd k, hseen]
              by_cases he : s.1 = k
              · subst he
                unfold keepSpec
                rw [hnone, hdb]
                simp [eq_comm]
              · have hne : ¬(k = s.1) := fun hh => he hh.symm
                simp [he, hne])
          have heq : (seen ++ [s]) ++ L = seen ++ s :: L := by
            rw [List.append_assoc]
            rfl
          rw [heq] at main
          simpa [List.foldl, fmtVisit, hvis, hdb] using main
        · by_cases hpre : strStartsWith p s.2
          · -- keep
            have hks : ∀ k, keepSpec db (seen ++ [s]) k =
                if s.1 = k then some p else keepSpec db seen k := by
              intro k
              unfold keepSpec
              rw [hseen]
              by_cases he : s.1 = k
              · subst he
                rw [hdb]
                simp [hpre]
              · simp [he]
            have hkn : ∀ k, dlookup (st.known ++ [(s.1, p)]) k =
                keepSpec db (seen ++ [s]) k := by
              intro k
              rw [dlookup_append, hks]
              by_cases he : s.1 = k
              · subst he
                rw [hk s.1]
                unfold keepSpec
                rw [hnone]
                simp [dlookup]
              · rw [hk k]
                rcases hkk : keepSpec db seen k with _ | v
                · simp [dlookup, he]
                · simp [he]
            have main := passA_fold_inv db L
              { st with visited := st.visited ++ [s.1], known := st.known ++ [(s.1, p)] }
              (seen ++ [s])
              (fun k => hvis' k)
              (fun k => hkn k)
              (fun bd k => by
                show k ∈ (dlookup st.dirs bd).getD [] ↔ _
                rw [hq bd k, hseen, hks]
                by_cases he : s.1 = k
                · subst he
                  rw [hnone]
                  simp
                · simp [he])
            have heq : (seen ++ [s]) ++ L = seen ++ s :: L := by
              rw [List.append_assoc]
              rfl
            rw [heq] at main
            simpa [List.foldl, fmtVisit, hvis, hdb, hpre] using main
          · -- stored path does not match: queue
            have hks : ∀ k, keepSpec db (seen ++ [s]) k = keepSpec db seen k := by
              intro k
              unfold keepSpec
              rw [hseen]
              by_cases he : s.1 = k
              · subst he
                rw [hnone, hdb]
                simp [hpre]
              · simp [he]
            have main := passA_fold_inv db L
              { st with visited := st.visited ++ [s.1], dirs := queueDir st.dirs s.2 s.1 }
              (seen ++ [s])
              (fun k => hvis' k)
              (fun k => by rw [hks]; exact hk k)
              (fun bd k => by
                rw [hks]
                show k ∈ (dlookup (queueDir st.dirs s.2 s.1) bd).getD [] ↔ _
                rw [queueDir_mem, hq bd k, hseen]
                by_cases he : s.1 = k
                · subst he
                  unfold keepSpec
                  rw [hnone, hdb]
                  simp [hpre, eq_comm]
                · have hne : ¬(k = s.1) := fun hh => he hh.symm
                  simp [he, hne])
            have heq : (seen ++ [s]) ++ L = seen ++ s :: L := by
              rw [List.append_assoc]
              rfl
            rw [heq] at main
            simpa [List.foldl, fmtVisit, hvis, hdb, hpre] using main

theorem passA_known (db steps : List (DKey × String)) (k : DKey) :
    dlookup (passA db steps).known k = keepSpec db steps k := by
  have h := passA_fold_inv db steps oracleInit []
    (by intro k; simp [oracleInit, dlookup])
    (by intro k; simp [oracleInit, keepSpec, dlookup])
    (by intro bd k; simp [oracleInit, dlookup])
  simpa [passA] using h.2.1 k

theorem passA_queued (db steps : List (DKey × String)) (bd : String) (k : DKey) :
    k ∈ (dlookup (passA db steps).dirs bd).getD [] ↔
      (dlookup steps k = some bd ∧ keepSpec db steps k = none) := by
  have h := passA_fold_inv db steps oracleInit []
    (by intro k; simp [oracleInit, dlookup])
    (by intro k; simp [oracleInit, keepSpec, dlookup])
    (by intro bd k; simp [oracleInit, dlookup])
  simpa [passA] using h.2.2 bd k

theorem queueDir_keys (dirs : List (String × List DKey)) (bd : String) (key : DKey) :
    (queueDir dirs bd key).map Prod.fst =
      if (dlookup dirs bd).isSome then dirs.map Prod.fst
      else dirs.map Prod.fst ++ [bd] := by
  unfold queueDir
  rcases h : dlookup dirs bd with _ | ks
  · simp
  · rw [dinsert_keys_of_mem dirs bd _ (by rw [h]; rfl)]
    simp

theorem passA_dirs_keys_aux (db : List (DKey × String)) (P : String → Prop) :
    ∀ (L : List (DKey × String)) (st : OracleSt),
    (st.dirs.map Prod.fst).Nodup → (∀ bd ∈ st.dirs.map Prod.fst, P bd) →
    (∀ p ∈ L, P p.2) →
    ((L.foldl (fun st s => fmtVisit db st s.1 s.2) st).dirs.map Prod.fst).Nodup ∧
    (∀ bd ∈ (L.foldl (fun st s => fmtVisit db st s.1 s.2) st).dirs.map Prod.fst, P bd)
  | [], st, hnd, hP, _ => ⟨hnd, hP⟩
  | s :: L, st, hnd, hP, hL => by
      have hq : ((queueDir st.dirs s.2 s.1).map Prod.fst).Nodup ∧
          (∀ bd ∈ (queueDir st.dirs s.2 s.1).map Prod.fst, P bd) := by
        rw [queueDir_keys]
        split_ifs with h
        · exact ⟨hnd, hP⟩
        · have hnotmem : s.2 ∉ st.dirs.map Prod.fst := by
            rw [← dlookup_eq_none_iff]
            exact Option.not_isSome_iff_eq_none.mp h
          constructor
          · rw [List.nodup_append]
            exact ⟨hnd, List.nodup_singleton _, by
              intro x hx hx2
              rw [List.mem_singleton] at hx2
              subst hx2
              exact hnotmem hx⟩
          · intro bd hbd
            rcases List.mem_append.mp hbd with h2 | h2
            · exact hP bd h2
            · rw [List.mem_singleton] at h2
              subst h2
              exact hL s (List.mem_cons_self _ _)
      have hLrest : ∀ p ∈ L, P p.2 := fun p hp => hL p (List.mem_cons_of_mem _ hp)
      by_cases hvis : s.1 ∈ st.visited
      · have h := passA_dirs_keys_aux db P L st hnd hP hLrest
        simpa [List.foldl, fmtVisit, hvis] using h
      · rcases hdb : dlookup db s.1 with _ | p
        · have h := passA_dirs_keys_aux db P L
            { st with visited := st.visited ++ [s.1], dirs := queueDir st.dirs s.2 s.1 }
            hq.1 hq.2 hLrest
          simpa [List.foldl, fmtVisit, hvis, hdb] using h
        · by_cases hpre : strStartsWith p s.2
          · have h := passA_dirs_keys_aux db P L
              { st with visited := st.visited ++ [s.1], known := st.known ++ [(s.1, p)] }
              hnd hP hLrest
            simpa [List.foldl, fmtVisit, hvis, hdb, hpre] using h
          · have h := passA_dirs_keys_aux db P L
              { st with visited := st.visited ++ [s.1], dirs := queueDir st.dirs s.2 s.1 }
              hq.1 hq.2 hLrest
            simpa [List.foldl, fmtVisit, hvis, hdb, hpre] using h

theorem dlookup_mem {K V : Type} [DecidableEq K] (d : List (K × V)) (k : K) (v : V)
    (h : dlookup d k = some v) : (k, v) ∈ d := by
  induction d with
  | nil => simp [dlookup] at h
  | cons hd t ih =>
      by_cases hk : hd.1 = k
      · rw [dlookup, if_pos hk] at h
        have hv : hd.2 = v := Option.some_inj.mp h
        have he : (k, v) = hd := by
          rw [← hk, ← hv]
        rw [he]
        exact List.mem_cons_self _ _
      · rw [dlookup, if_neg hk] at h
        exact List.mem_cons_of_mem _ (ih h)

theorem dlookup_of_mem_nodup {K V : Type} [DecidableEq K] (d : List (K × V)) (k : K)
    (v : V) (hnd : (d.map Prod.fst).Nodup) (h : (k, v) ∈ d) : dlookup d k = some v := by
  induction d with
  | nil => exact absurd h (List.not_mem_nil _)
  | cons hd t ih =>
      rw [List.map_cons, List.nodup_cons] at hnd
      rcases List.mem_cons.mp h with h2 | h2
      · rw [← h2]
        simp [dlookup]
      · have hk : hd.1 ≠ k := by
          intro he
          exact hnd.1 (he ▸ (List.mem_map.mpr ⟨(k, v), h2, rfl⟩))
        rw [dlookup, if_neg hk]
        exact ih hnd.2 h2

theorem dlookup_assign_flatten (kd : List String) :
    ∀ (ds : List (String × List DKey)) (k : DKey) (bd : String),
    (∃ ks, (bd, ks) ∈ ds ∧ k ∈ ks) →
    (∀ bd' ks', (bd', ks') ∈ ds → k ∈ ks' → bd' = bd) →
    ∃ n, 1 ≤ n ∧
      dlookup ((ds.map fun p => assignKeys kd p.1 p.2 1).flatten) k =
        some (joinPath bd n) ∧
      joinPath bd n ∉ kd
  | [], k, bd, hex, _ => absurd hex.choose_spec.1 (List.not_mem_nil _)
  | (bd0, ks0) :: ds, k, bd, hex, huni => by
      by_cases hk0 : k ∈ ks0
      · have hbd0 : bd0 = bd := huni bd0 ks0 (List.mem_cons_self _ _) hk0
        subst hbd0
        obtain ⟨n, hn, hl, hfree⟩ := assignKeys_dlookup kd bd0 ks0 1 k hk0
        refine ⟨n, hn, ?_, hfree⟩
        simp only [List.map_cons, List.flatten_cons]
        rw [dlookup_append, hl]
      · have hnone : dlookup (assignKeys kd bd0 ks0 1) k = none := by
          rw [dlookup_eq_none_iff, assignKeys_keys]
          exact hk0
        obtain ⟨ks, hks, hkks⟩ := hex
        have hks' : (bd, ks) ∈ ds := by
          rcases List.mem_cons.mp hks with h2 | h2
          · obtain ⟨h3, h4⟩ := Prod.mk.injEq .. ▸ h2
            rw [h4] at hkks
            exact absurd hkks hk0
          · exact h2
        obtain ⟨n, hn, hl, hfree⟩ := dlookup_assign_flatten kd ds k bd ⟨ks, hks', hkks⟩
          (fun bd' ks' h' hk' => huni bd' ks' (List.mem_cons_of_mem _ h') hk')
        refine ⟨n, hn, ?_, hfree⟩
        simp only [List.map_cons, List.flatten_cons]
        rw [dlookup_append, hnone]
        exact hl

theorem writeBack_paths_nodup (st : OracleSt)
    (hknd : (st.known.map Prod.snd).Nodup)
    (hdnd : (st.dirs.map Prod.fst).Nodup)
    (hwf : ∀ bd ∈ st.dirs.map Prod.fst, bd ≠ "" ∧ endsWithSlash bd = false) :
    ((writeBack st).map Prod.snd).Nodup := by
  unfold writeBack
  rw [List.map_append, List.nodup_append]
  refine ⟨hknd, ?_, ?_⟩
  · rw [List.map_flatten, List.map_map, List.nodup_flatten]
    constructor
    · intro x hx
      rcases List.mem_map.mp hx with ⟨pq, hpq, rfl⟩
      exact assignKeys_paths_nodup _ _ _ _
    · rw [List.pairwise_map]
      have hpair : st.dirs.Pairwise (fun p q => p.1 ≠ q.1) :=
        List.pairwise_map.mp hdnd
      refine hpair.imp_of_mem ?_
      intro p q hp hq hne x hxp hxq
      rcases List.mem_map.mp hxp with ⟨⟨k1, p1⟩, hm1, he1⟩
      rcases List.mem_map.mp hxq with ⟨⟨k2, p2⟩, hm2, he2⟩
      obtain ⟨n1, -, hp1, -⟩ := assignKeys_mem_form _ _ _ _ _ _ hm1
      obtain ⟨n2, -, hp2, -⟩ := assignKeys_mem_form _ _ _ _ _ _ hm2
      have hwp := hwf p.1 (List.mem_map.mpr ⟨p, hp, rfl⟩)
      have hwq := hwf q.1 (List.mem_map.mpr ⟨q, hq, rfl⟩)
      have hx12 : joinPath p.1 n1 = joinPath q.1 n2 := by
        rw [← hp1, ← hp2]
        show (k1, p1).2 = (k2, p2).2
        rw [he1, he2]
      exact hne (joinPath_cross_inj p.1 q.1 n1 n2 hwp.1 hwp.2 hwq.1 hwq.2 hx12).1
  · intro x hxk hxf
    rw [List.map_flatten, List.map_map] at hxf
    rcases List.mem_flatten.mp hxf with ⟨seg, hseg, hxseg⟩
    rcases List.mem_map.mp hseg with ⟨pq, hpq, rfl⟩
    rcases List.mem_map.mp hxseg with ⟨⟨k1, p1⟩, hm1, he1⟩
    obtain ⟨n1, -, hp1, hfree⟩ := assignKeys_mem_form _ _ _ _ _ _ hm1
    refine hfree ?_
    rw [← hp1]
    show (k1, p1).2 ∈ _
    rw [he1]
    exact hxk

set_option maxHeartbeats 1000000 in
/-- C7: during a develop-dir oracle refresh, a key's existing directory
mapping is kept exactly when the stored path starts with the newly computed
`baseDir` (of the key's first visit); every other visited key is assigned a
path `baseDir/N` with `N ≥ 1` that skips every path reserved by a kept
entry; and when the kept paths are distinct and the base dirs are well
formed (non-empty, no trailing separator), all directories in the rewritten
table are pairwise distinct. -/
theorem develop_dirs_refresh (db steps : List (DKey × String)) :
    (∀ k p, dlookup (passA db steps).known k = some p ↔
      (∃ b, dlookup steps k = some b ∧ dlookup db k = some p ∧
        strStartsWith p b = true)) ∧
    (∀ k b, dlookup steps k = some b → dlookup (passA db steps).known k = none →
      ∃ n, 1 ≤ n ∧
        dlookup (writeBack (passA db steps)) k = some (joinPath b n) ∧
        joinPath b n ∉ (passA db steps).known.map Prod.snd) ∧
    ((((passA db steps).known.map Prod.snd).Nodup ∧
      (∀ p ∈ steps, p.2 ≠ "" ∧ endsWithSlash p.2 = false)) →
      ((writeBack (passA db steps)).map Prod.snd).Nodup) := by
  refine ⟨?_, ?_, ?_⟩
  · intro k p
    rw [passA_known]
    unfold keepSpec
    rcases hs : dlookup steps k with _ | b
    · simp
    · rcases hd : dlookup db k with _ | q
      · simp
      · by_cases hpre : strStartsWith q b = true
        · simp only [hpre, if_true]
          constructor
          · intro h
            obtain rfl := Option.some_inj.mp h
            exact ⟨b, rfl, rfl, hpre⟩
          · rintro ⟨b', hb', hq, hsw⟩
            exact hq
        · simp only [hpre, if_false]
          constructor
          · intro h
            exact Option.noConfusion h
          · rintro ⟨b', hb', hq, hsw⟩
            obtain rfl : b = b' := Option.some_inj.mp hb'
            obtain rfl : q = p := Option.some_inj.mp hq
            exact absurd hsw hpre
  · intro k b hsb hknone
    have hkeys := passA_dirs_keys_aux db (fun _ => True) steps oracleInit
      (by simp [oracleInit]) (by simp [oracleInit]) (by simp)
    have hknd : ((passA db steps).dirs.map Prod.fst).Nodup := hkeys.1
    have hkeep : keepSpec db steps k = none := by
      rw [← passA_known]
      exact hknone
    have hqmem0 := (passA_queued db steps b k).mpr ⟨hsb, hkeep⟩
    rcases hql : dlookup (passA db steps).dirs b with _ | ks
    · rw [hql] at hqmem0
      simp at hqmem0
    · rw [hql] at hqmem0
      simp only [Option.getD_some] at hqmem0
      have hentry : (b, ks) ∈ (passA db steps).dirs := dlookup_mem _ _ _ hql
      have huni : ∀ bd' ks', (bd', ks') ∈ (passA db steps).dirs → k ∈ ks' → bd' = b := by
        intro bd' ks' hmem' hk'
        have hl' : dlookup (passA db steps).dirs bd' = some ks' :=
          dlookup_of_mem_nodup _ _ _ hknd hmem'
        have hin : k ∈ (dlookup (passA db steps).dirs bd').getD [] := by
          rw [hl']
          exact hk'
        have h2 := (passA_queued db steps bd' k).mp hin
        rw [hsb] at h2
        exact (Option.some_inj.mp h2.1).symm
      obtain ⟨n, hn, hl, hfree⟩ := dlookup_assign_flatten
        ((passA db steps).known.map Prod.snd) (passA db steps).dirs k b
        ⟨ks, hentry, hqmem0⟩ huni
      refine ⟨n, hn, ?_, hfree⟩
      unfold writeBack
      rw [dlookup_append, hknone]
      exact hl
  · rintro ⟨hknd, hwfs⟩
    have hkeys := passA_dirs_keys_aux db
      (fun bd => bd ≠ "" ∧ endsWithSlash bd = false) steps oracleInit
      (by simp [oracleInit]) (by simp [oracleInit]) hwfs
    exact writeBack_paths_nodup _ hknd hkeys.1 hkeys.2

/-- The refresh pipeline on a concrete instance: `k1` keeps its stored path
below the unchanged base dir, `k2` is new, `k3` moved away from its old base;
the queued keys get the suffixes 2 and 3 because `base/1` stays reserved. -/
theorem develop_dirs_refresh_example :
    writeBack (passA [("k1", "base/1"), ("k3", "other/7")]
      [("k1", "base"), ("k2", "base"), ("k3", "base")]) =
      [("k1", "base/1"), ("k2", "base/2"), ("k3", "base/3")] := by
  decide

end Bob
